import Mathlib

/-!
Verification development for the napster-to-spotify sync program.

The program reconciles favorited tracks from a source music catalog with a
named playlist on a destination catalog.  The definitions below are shallow
embeddings of the Go functions of the repository: strings are modelled as
`List Char` (the inputs of interest are ASCII), Go maps are modelled as
association lists with overwrite-on-insert semantics, paginated catalog
reads are modelled as lists, and a Go panic that a caller recovers into an
error is modelled with `Option`/`Except`.
-/

set_option autoImplicit false

namespace GnssSync

/-! ## ASCII string machinery (model of the parts of Go `strings` used) -/

/-- The apostrophe character, kept out of literals for readability. -/
def apost : Char := Char.ofNat 39

/-- Whitespace as trimmed by `strings.TrimSpace` (ASCII fragment). -/
def isSpaceChar (c : Char) : Bool :=
  c = ' ' || c = Char.ofNat 9 || c = Char.ofNat 10 || c = Char.ofNat 13

/-- `strings.TrimSpace` on ASCII text. -/
def trimSpace (s : List Char) : List Char :=
  ((s.dropWhile isSpaceChar).reverse.dropWhile isSpaceChar).reverse

/-- ASCII lower-casing of one character, as `strings.ToLower` acts on ASCII. -/
def asciiLower (c : Char) : Char :=
  if 65 ≤ c.toNat ∧ c.toNat ≤ 90 then Char.ofNat (c.toNat + 32) else c

/-- `strings.ToLower` on ASCII text. -/
def strLower (s : List Char) : List Char := s.map asciiLower

/-- Position of the last occurrence of character `c` in `s`
(`strings.LastIndex` with a one-character needle), `none` when absent. -/
def lastIndexOfCharAux (c : Char) : List Char → Nat → Option Nat
  | [], _ => none
  | x :: xs, i =>
    match lastIndexOfCharAux c xs (i + 1) with
    | some j => some j
    | none => if x = c then some i else none

/-- See `lastIndexOfCharAux`. -/
def lastIndexOfChar (s : List Char) (c : Char) : Option Nat :=
  lastIndexOfCharAux c s 0

/-! ## Title normalization (src/internal/sync/spotify.go and sync.go) -/

/-- The Go loop `for i > 0 && distilled[i] == ' ' { i-- }` of
`removeSuffixClause`, returning the final value of `i`. -/
def backSpaces (s : List Char) : Nat → Nat
  | 0 => 0
  | j + 1 => if s.getD (j + 1) (Char.ofNat 0) = ' ' then backSpaces s j else j + 1

/-- Embeds `removeSuffixClause` (src/internal/sync/spotify.go lines 199-221,
identical in sync.go).  Both call sites pass one-character delimiters, so the
delimiters are modelled as `Char`.  The Go code slices `distilled[:len-1]`
before any length check, which panics when the trimmed argument is empty;
that panic is modelled as `none`.  Note the faithful reproduction of the
comparison `distilled[:len(distilled)-1] != rightDelimiter`: it compares the
prefix of the string (everything but the last byte) with the delimiter. -/
def removeSuffixClause (arg : List Char) (leftDelimiter rightDelimiter : Char) :
    Option (List Char) :=
  let distilled := trimSpace arg
  if distilled.length = 0 then none
  else if distilled.take (distilled.length - 1) ≠ [rightDelimiter] then some distilled
  else
    match lastIndexOfChar distilled leftDelimiter with
    | none => some distilled
    | some i0 =>
      if i0 = 0 then some []
      else some (distilled.take (backSpaces distilled (i0 - 1) + 1))

/-- Embeds `simplifyTitle` (src/internal/sync/spotify.go lines 233-240):
strips one trailing parenthetical and one trailing bracketed clause. -/
def simplifyTitle (arg : List Char) : Option (List Char) := do
  let d1 ← removeSuffixClause arg '(' ')'
  removeSuffixClause d1 '[' ']'

/-- The character class `[a-zA-Z0-9']` of `invalidTrackCharsRx`
(the regex is its complement). -/
def isAllowedChar (c : Char) : Bool :=
  ('a' ≤ c && c ≤ 'z') || ('A' ≤ c && c ≤ 'Z') || ('0' ≤ c && c ≤ '9') || c = apost

/-- `regexp.ReplaceAllString` for a one-or-more character-class pattern:
each maximal run of characters satisfying `p` is replaced by `repl`. -/
def replaceRunsWith (p : Char → Bool) (repl : List Char) : List Char → List Char
  | [] => []
  | c :: rest =>
    if p c then
      match rest with
      | d :: _ =>
        if p d then replaceRunsWith p repl rest
        else repl ++ replaceRunsWith p repl rest
      | [] => repl ++ replaceRunsWith p repl rest
    else c :: replaceRunsWith p repl rest

/-- Embeds `normalizeTitle` (src/internal/sync/sync.go lines 324-332, the
latest evolution, which substitutes a space for each run matched by
`invalidTrackCharsRx = [^a-zA-Z0-9']+`, collapses space runs via
`spaceCharsRx = [ ]+`, and lower-cases; the older copy in spotify.go
substitutes the empty string instead).  No trimming is performed. -/
def normalizeTitle (arg : List Char) : List Char :=
  let step1 := replaceRunsWith (fun c => !isAllowedChar c) [' '] arg
  let step2 := replaceRunsWith (fun c => c = ' ') [' '] step1
  strLower step2

/-- Embeds `isEqual` (src/internal/sync/spotify.go lines 242-287, identical
in sync.go).  The `typeName` argument is unused by the Go body as well.
A panic escaping `simplifyTitle` is recovered by the deferred handler into
an error, modelled as `none`. -/
def isEqual (typeName arg1 arg2 : List Char) (doLiberalSearch : Bool) :
    Option Bool :=
  let _ := typeName
  let a1 := strLower (trimSpace arg1)
  let a2 := strLower (trimSpace arg2)
  if doLiberalSearch then do
    let s1 ← simplifyTitle a1
    let s2 ← simplifyTitle a2
    if s1 = s2 then pure true else pure false
  else
    if a1 = a2 then some true
    else if normalizeTitle a1 = normalizeTitle a2 then some true
    else some false


/-! ## Predicates used by the normalization theorems -/

/-- No two adjacent spaces occur in the character list. -/
def noDoubleSpace : List Char → Bool
  | c :: d :: rest => if c = ' ' ∧ d = ' ' then false else noDoubleSpace (d :: rest)
  | _ => true

/-- Renames parentheses to square brackets, the "bracket style" variation. -/
def parensToBrackets (c : Char) : Char :=
  if c = '(' then '[' else if c = ')' then ']' else c

/-! ## Artist search (src/internal/sync/sync.go lines 232-296) -/

/-- One artist entry of a search-result page of the destination catalog. -/
structure ArtistEntry where
  name : List Char
  id : String
deriving DecidableEq

/-- The global `allowCache` flag (src/internal/sync/sync.go line 140). -/
def allowCache : Bool := true

/-- `maxPages` of `searchSpotifyArtists` (line 251): the code deliberately
limits the scan to one page. -/
def maxPages : Nat := 1

/-- Association-list model of a Go map (insert conses, lookup takes the
most recent binding, matching overwrite semantics). -/
def lookupA {κ β : Type} [DecidableEq κ] (k : κ) : List (κ × β) → Option β
  | [] => none
  | (k2, v) :: rest => if k2 = k then some v else lookupA k rest

/-- The artist cache `cachedArtists : map[string][]spotify.ID`. -/
abbrev ArtistCache := List (List Char × List String)

inductive ArtistSearchOutcome where
  /-- `matching` returned. -/
  | ok (ids : List String)
  /-- `log.Panic(ErrSpotifyArtistNotFound)`, recovered into an error. -/
  | artistNotFound
  /-- the fatal `log.Panicf("no artists")` safety check. -/
  | noArtistsPanic
deriving DecidableEq

/-- The page loop of `searchSpotifyArtists`: `j` is the page index, `fuel`
the remaining iterations (`maxPages - j`).  Page 0 comes from the `Search`
call; later pages from `NextArtistResults`, which reports no-more-pages when
the catalog has run out (modelled as `j` beyond the page list).  An empty
page triggers the fatal "no artists" panic, modelled as `none`. -/
def searchArtistsLoop (pages : List (List ArtistEntry)) (name : List Char) :
    Nat → Nat → List String → Option (List String)
  | _, 0, matching => some matching
  | j, fuel + 1, matching =>
    if j = 0 ∨ j < pages.length then
      let page := pages.getD j []
      if page.length = 0 then none
      else
        searchArtistsLoop pages name (j + 1) fuel
          (matching ++ page.filterMap fun a =>
            if strLower a.name = name then some a.id else none)
    else some matching

/-- Embeds `searchSpotifyArtists` (src/internal/sync/sync.go lines 232-296):
serves from the cache when possible, scans at most `maxPages` pages
collecting every exact (lower-cased) name match, caches a non-empty
candidate list under the query, and otherwise fails with ArtistNotFound. -/
def searchSpotifyArtists (pages : List (List ArtistEntry)) (cache : ArtistCache)
    (name : List Char) : ArtistSearchOutcome × ArtistCache :=
  match (if allowCache then lookupA name cache else none) with
  | some ids => (.ok ids, cache)
  | none =>
    match searchArtistsLoop pages name 0 maxPages [] with
    | none => (.noArtistsPanic, cache)
    | some matching =>
      if 0 < matching.length then (.ok matching, (name, matching) :: cache)
      else (.artistNotFound, cache)

/-! ## Album resolution (src/internal/sync/sync.go lines 397-483) -/

/-- One album entry listed under an artist (market filtering and the
album-type filter happen in the catalog request and are absorbed into the
list handed to the resolver). -/
structure AlbumEntry where
  name : List Char
  id : String
deriving DecidableEq

inductive AlbumOutcome where
  | ok (id : String)
  | albumNotFound
  /-- an unexpected error re-raised by `log.PanicIf`. -/
  | fatalPanic
deriving DecidableEq

/-- The album cache `cachedAlbums : map[albumKey]spotify.ID`, keyed by
(artistId, albumName). -/
abbrev AlbumCache := List ((String × List Char) × String)

/-- The `typeName` string passed by `getSpotifyAlbumId` to `isEqual`. -/
def albumTypeName : List Char := "album".toList

/-- The page-and-match loop of `getSpotifyAlbumId`: each album's lower-cased
name is compared by `isEqual`; an `isEqual` error is re-raised (modelled as
the outer `none`), `some (some a)` is the first match, `some none` means the
album listing was exhausted without a match. -/
def findAlbumMatch (name : List Char) (doLiberalSearch : Bool) :
    List AlbumEntry → Option (Option AlbumEntry)
  | [] => some none
  | a :: rest =>
    match isEqual albumTypeName (strLower a.name) name doLiberalSearch with
    | none => none
    | some true => some (some a)
    | some false => findAlbumMatch name doLiberalSearch rest

/-- Embeds `getSpotifyAlbumId` (src/internal/sync/sync.go lines 397-483).
`albumAllowCache` is `allowCache` turned off for a liberal search: a liberal
pass neither reads nor writes the album cache. -/
def getSpotifyAlbumId (albums : List AlbumEntry) (cache : AlbumCache)
    (artistId : String) (name : List Char)
    (doLiberalSearch doPrintCandidates : Bool) : AlbumOutcome × AlbumCache :=
  let _ := doPrintCandidates
  let albumAllowCache := allowCache && !doLiberalSearch
  let cak := (artistId, name)
  match (if albumAllowCache then lookupA cak cache else none) with
  | some id => (.ok id, cache)
  | none =>
    match findAlbumMatch name doLiberalSearch albums with
    | none => (.fatalPanic, cache)
    | some (some a) =>
      (.ok a.id, if albumAllowCache then (cak, a.id) :: cache else cache)
    | some none => (.albumNotFound, cache)

/-! ## Track-set resolution orchestration
(src/internal/sync/sync.go lines 609-678) -/

/-- `foundTracks : map[spotify.ID]string` as an association list. -/
abbrev FoundTracks := List (String × List Char)

inductive TracksResult where
  | ok (found : FoundTracks) (missing : List (List Char))
  | albumNotFoundErr
  | fatalErr
deriving DecidableEq

inductive PassOutcome where
  /-- early `return foundTracks, missingTracks, nil`. -/
  | success (found : FoundTracks) (missing : List (List Char))
  /-- loop exhausted; `acc` is the current value of the `foundTracks` and
  `missingTracks` variables (`none` models Go `nil`). -/
  | fallthrough (acc : Option (FoundTracks × List (List Char)))
  | fatal
deriving DecidableEq

/-- One candidate-artist loop of `GetSpotifyTrackIdsWithNames`.  `getAlbum`
stands for `getSpotifyAlbumId` for the given artist and pass, `getTracks`
for `getSpotifyTrackIds` on the resolved album (both deterministic within
one call: failures are never cached, so a repeated lookup repeats its
outcome). -/
def albumPass (getAlbum : String → Bool → AlbumOutcome)
    (getTracks : String → FoundTracks × List (List Char)) (liberal : Bool) :
    List String → Option (FoundTracks × List (List Char)) → PassOutcome
  | [], acc => .fallthrough acc
  | artistId :: rest, acc =>
    match getAlbum artistId liberal with
    | .albumNotFound => albumPass getAlbum getTracks liberal rest acc
    | .fatalPanic => .fatal
    | .ok albumId =>
      let ft := (getTracks albumId).1
      let mt := (getTracks albumId).2
      if ft.length = 0 then albumPass getAlbum getTracks liberal rest (some (ft, mt))
      else .success ft mt

/-- Embeds `GetSpotifyTrackIdsWithNames` (src/internal/sync/sync.go lines
609-678) given the candidate artist identifiers produced by
`searchSpotifyArtists`: a strict pass over all candidates, then a liberal
pass, then the final `foundTracks != nil` check that distinguishes "some
album resolved but yielded no tracks" from "no album resolved at all". -/
def GetSpotifyTrackIdsWithNames (getAlbum : String → Bool → AlbumOutcome)
    (getTracks : String → FoundTracks × List (List Char))
    (artistIds : List String) : TracksResult :=
  match albumPass getAlbum getTracks false artistIds none with
  | .fatal => .fatalErr
  | .success ft mt => .ok ft mt
  | .fallthrough acc =>
    match albumPass getAlbum getTracks true artistIds acc with
    | .fatal => .fatalErr
    | .success ft mt => .ok ft mt
    | .fallthrough (some (ft, mt)) => .ok ft mt
    | .fallthrough none => .albumNotFoundErr

/-- Spec-side description of the first-success policy: the first candidate
of the pass whose resolved album yields at least one track. -/
def firstSuccessfulResolution (getAlbum : String → Bool → AlbumOutcome)
    (getTracks : String → FoundTracks × List (List Char)) (liberal : Bool) :
    List String → Option (FoundTracks × List (List Char))
  | [] => none
  | artistId :: rest =>
    match getAlbum artistId liberal with
    | .ok albumId =>
      if (getTracks albumId).1.length = 0 then
        firstSuccessfulResolution getAlbum getTracks liberal rest
      else some (getTracks albumId)
    | _ => firstSuccessfulResolution getAlbum getTracks liberal rest

/-! ## Favorites import driver (src/unnamed/part_004) -/

/-- A bulk track-detail record from the source catalog. -/
structure MetadataTrackDetail where
  artistName : List Char
  albumName : List Char
  name : List Char
deriving DecidableEq

/-- `NormalizedTrack` of src/unnamed/part_004 lines 86-90. -/
structure NormalizedTrack where
  artistNames : List (List Char)
  albumName : List Char
  trackName : List Char
deriving DecidableEq

/-- `getNapsterNormalizedTrack` (src/unnamed/part_004 lines 103-114). -/
def getNapsterNormalizedTrack (track : MetadataTrackDetail) : NormalizedTrack :=
  { artistNames := [strLower track.artistName]
    trackName := strLower track.name
    albumName := strLower track.albumName }

/-- Outcome of `GetSpotifyTrackIdWithNames` as seen by `importBatch`
(failures are never cached by the adapter, so within one run the lookup is
a deterministic function of the three names). -/
inductive TrackLookup where
  | ok (id : String)
  | artistNotFound
  | albumNotFound
  | trackNotFound
  | fatal
deriving DecidableEq

/-- The importer state that persists across batches: the skip counter, the
`artistNotices` set, the `missing` phrase list and the collector. -/
structure RunState where
  skipped : Nat
  artistNotices : List (List Char)
  missing : List (List Char)
  idList : List String
deriving DecidableEq

/-- Batch-local state: `missingArtists` and `missingAlbums` are created
afresh inside each `importBatch` call (src/unnamed/part_004 lines 141-142). -/
structure BatchAcc where
  run : RunState
  missingArtists : List (List Char)
  missingAlbums : List (List Char × List Char)
deriving DecidableEq

/-- Set-insert into the notices list (Go `map[string]bool`). -/
def insertNotice (an : List Char) (notices : List (List Char)) : List (List Char) :=
  if an ∈ notices then notices else notices ++ [an]

/-- `fmt.Sprintf("[%s]", a)`. -/
def mkPhrase1 (a : List Char) : List Char := ('[' :: a) ++ [']']

/-- `fmt.Sprintf("[%s] [%s]", a, b)`. -/
def mkPhrase2 (a b : List Char) : List Char := mkPhrase1 a ++ ' ' :: mkPhrase1 b

/-- `fmt.Sprintf("[%s] [%s] [%s]", a, b, c)`. -/
def mkPhrase3 (a b c : List Char) : List Char := mkPhrase2 a b ++ ' ' :: mkPhrase1 c

/-- The body of the per-track loop of `importBatch` (src/unnamed/part_004
lines 144-247).  `none` models an unrecovered fatal error. -/
def importTrackStep (lookup : List Char → List Char → List Char → TrackLookup)
    (onlyArtists : List (List Char)) (spotifyIndex : List String)
    (acc : BatchAcc) (track : MetadataTrackDetail) : Option BatchAcc :=
  let nt := getNapsterNormalizedTrack track
  let found := nt.artistNames.any fun anTrack =>
    onlyArtists.any fun anAllowed => anAllowed = anTrack
  if !found then
    some { acc with run := { acc.run with
      skipped := acc.run.skipped + 1
      artistNotices :=
        nt.artistNames.foldl (fun ns an => insertNotice an ns) acc.run.artistNotices } }
  else
    let artistName := strLower (nt.artistNames.headD [])
    let albumName := strLower nt.albumName
    let akn := (artistName, albumName)
    if artistName ∈ acc.missingArtists then some acc
    else if akn ∈ acc.missingAlbums then some acc
    else
      match lookup artistName albumName nt.trackName with
      | .artistNotFound =>
        if artistName ∈ acc.missingArtists then some acc
        else some { acc with
          run := { acc.run with missing := acc.run.missing ++ [mkPhrase1 artistName] }
          missingArtists := acc.missingArtists ++ [artistName] }
      | .albumNotFound =>
        if akn ∈ acc.missingAlbums then some acc
        else some { acc with
          run := { acc.run with
            missing := acc.run.missing ++ [mkPhrase2 artistName albumName] }
          missingAlbums := acc.missingAlbums ++ [akn] }
      | .trackNotFound =>
        some { acc with run := { acc.run with
          missing := acc.run.missing ++ [mkPhrase3 artistName albumName nt.trackName] } }
      | .fatal => none
      | .ok id =>
        if id ∈ spotifyIndex then some acc
        else some { acc with run := { acc.run with idList := acc.run.idList ++ [id] } }

/-- Embeds `importBatch` (src/unnamed/part_004 lines 116-251) applied to one
fetched page of favorite tracks: panics when the allow-list is empty, then
folds the per-track step with freshly created batch-local dedup maps, and
returns the page length together with the updated persistent state. -/
def importBatch (lookup : List Char → List Char → List Char → TrackLookup)
    (onlyArtists : List (List Char)) (spotifyIndex : List String)
    (run : RunState) (tracks : List MetadataTrackDetail) :
    Option (Nat × RunState) :=
  if onlyArtists.length = 0 then none
  else
    match tracks.foldlM (importTrackStep lookup onlyArtists spotifyIndex)
        { run := run, missingArtists := [], missingAlbums := [] } with
    | none => none
    | some acc => some (tracks.length, acc.run)

/-- Embeds `buildSpotifyIndex` (src/unnamed/part_004 lines 253-267): the
membership set of destination track identifiers already in the playlist. -/
def buildSpotifyIndex (index : List String) (tracks : List String) :
    List String :=
  tracks.foldl (fun ix id => if id ∈ ix then ix else ix ++ [id]) index

/-- The resolution outcome `importBatch` observes for one track: the
adapter lookup applied to the same three names the loop body passes. -/
def trackLookupOf (lookup : List Char → List Char → List Char → TrackLookup)
    (track : MetadataTrackDetail) : TrackLookup :=
  let nt := getNapsterNormalizedTrack track
  lookup (strLower (nt.artistNames.headD [])) (strLower nt.albumName) nt.trackName

/-- Spec-side description of the identifiers a page contributes to the
collector: allow-listed tracks whose resolution succeeds with an identifier
not already in the existing-playlist index. -/
def resolvedAdditions (lookup : List Char → List Char → List Char → TrackLookup)
    (onlyArtists : List (List Char)) (spotifyIndex : List String)
    (tracks : List MetadataTrackDetail) : List String :=
  tracks.filterMap fun track =>
    let nt := getNapsterNormalizedTrack track
    if nt.artistNames.any (fun anTrack =>
        onlyArtists.any fun anAllowed => anAllowed = anTrack) then
      match trackLookupOf lookup track with
      | .ok id => if id ∈ spotifyIndex then none else some id
      | _ => none
    else none

/-! ## Batched playlist additions (src/napster-to-spotify-sync/main.go
lines 126-150) -/

/-- `spotifyBatchSize` (main.go line 28). -/
def spotifyBatchSize : Nat := 50

/-- The add loop of `main`: fills `batchIdList`, flushing a full batch via
`flushCb` whenever the fill counter reaches `spotifyBatchSize`, and flushing
the partial remainder at the end.  The entry list is the sequence produced
by ranging over the Go map of resolved identifiers; `ι` stands for
`spotify.ID`, `α` for the logged track-info values. -/
def chunkLoop {ι α : Type} : List (ι × α) → List ι → List (List ι)
  | [], buf => if 0 < buf.length then [buf] else []
  | (id, _) :: rest, buf =>
    let buf2 := buf ++ [id]
    if spotifyBatchSize ≤ buf2.length then buf2 :: chunkLoop rest []
    else chunkLoop rest buf2

/-- The sequence of `AddTracksToPlaylist` calls issued by `main` for the
given iteration sequence of the resolved-identifier map. -/
def addTracksBatched {ι α : Type} (ids : List (ι × α)) : List (List ι) :=
  chunkLoop ids []

/-- Spec-side chunking: consecutive blocks of `spotifyBatchSize`. -/
def chunksSpec {ι : Type} : List ι → List (List ι)
  | [] => []
  | x :: xs =>
    if spotifyBatchSize ≤ (x :: xs).length then
      (x :: xs).take spotifyBatchSize :: chunksSpec ((x :: xs).drop spotifyBatchSize)
    else [x :: xs]
termination_by l => l.length
decreasing_by
  simp only [List.length_drop, List.length_cons, spotifyBatchSize] at *
  omega


theorem charOfNat_toNat {n : Nat} (h : n < 55296) : (Char.ofNat n).toNat = n := by
  unfold Char.ofNat
  rw [dif_pos (Or.inl h)]
  simp [Char.ofNatAux, Char.toNat, UInt32.toNat, UInt32.ofNatCore]

theorem char_eq_iff_toNat {a b : Char} : a = b ↔ a.toNat = b.toNat := by
  constructor
  · intro h; rw [h]
  · intro h; exact Char.ext (UInt32.ext h)

theorem asciiLower_space_iff (c : Char) : asciiLower c = ' ' ↔ c = ' ' := by
  unfold asciiLower
  split
  · next h =>
    constructor
    · intro he
      rw [char_eq_iff_toNat] at he
      rw [charOfNat_toNat (by omega)] at he
      simp at he
      omega
    · intro he
      rw [char_eq_iff_toNat] at he
      simp at he
      omega
  · exact Iff.rfl

theorem asciiLower_not_upper (c : Char) :
    ¬(65 ≤ (asciiLower c).toNat ∧ (asciiLower c).toNat ≤ 90) := by
  unfold asciiLower
  split
  · next h => rw [charOfNat_toNat (by omega)]; omega
  · next h => omega

theorem noDoubleSpace_cons_of_ne {c : Char} {xs : List Char} (hc : c ≠ ' ')
    (h : noDoubleSpace xs = true) : noDoubleSpace (c :: xs) = true := by
  cases xs with
  | nil => rfl
  | cons d rest => simpa [noDoubleSpace, hc] using h

theorem replaceRuns_head {p : Char → Bool} (hp : p ' ' = true) (l : List Char) :
    ((replaceRunsWith p [' '] l).head? = some ' ') ↔
      ∃ c, l.head? = some c ∧ p c = true := by
  induction l with
  | nil => simp [replaceRunsWith]
  | cons c rest ih =>
    by_cases hc : p c
    · cases rest with
      | nil => simp [replaceRunsWith, hc]
      | cons d r =>
        by_cases hd : p d
        · rw [show replaceRunsWith p [' '] (c :: d :: r) = replaceRunsWith p [' '] (d :: r) by
            simp [replaceRunsWith, hc, hd]]
          rw [ih]
          simp [hc, hd]
        · rw [show replaceRunsWith p [' '] (c :: d :: r) =
              ' ' :: replaceRunsWith p [' '] (d :: r) by simp [replaceRunsWith, hc, hd]]
          simp [hc]
    · have hcs : c ≠ ' ' := fun he => by rw [he] at hc; exact hc hp
      rw [show replaceRunsWith p [' '] (c :: rest) = c :: replaceRunsWith p [' '] rest by
        simp [replaceRunsWith, hc]]
      simp [hc, hcs]

theorem replaceRuns_noDouble {p : Char → Bool} (hp : p ' ' = true) (l : List Char) :
    noDoubleSpace (replaceRunsWith p [' '] l) = true := by
  induction l with
  | nil => rfl
  | cons c rest ih =>
    by_cases hc : p c
    · cases rest with
      | nil => simp [replaceRunsWith, hc, noDoubleSpace]
      | cons d r =>
        by_cases hd : p d
        · rw [show replaceRunsWith p [' '] (c :: d :: r) = replaceRunsWith p [' '] (d :: r) by
            simp [replaceRunsWith, hc, hd]]
          exact ih
        · have hds : d ≠ ' ' := fun he => by rw [he] at hd; exact hd hp
          have hstep : replaceRunsWith p [' '] (d :: r) = d :: replaceRunsWith p [' '] r := by
            simp [replaceRunsWith, hd]
          rw [show replaceRunsWith p [' '] (c :: d :: r) =
              ' ' :: replaceRunsWith p [' '] (d :: r) by simp [replaceRunsWith, hc, hd]]
          rw [hstep]
          rw [hstep] at ih
          have hnd : noDoubleSpace (' ' :: d :: replaceRunsWith p [' '] r) =
              noDoubleSpace (d :: replaceRunsWith p [' '] r) := by
            simp [noDoubleSpace, hds]
          rw [hnd]
          exact ih
    · have hcs : c ≠ ' ' := fun he => by rw [he] at hc; exact hc hp
      rw [show replaceRunsWith p [' '] (c :: rest) = c :: replaceRunsWith p [' '] rest by
        simp [replaceRunsWith, hc]]
      exact noDoubleSpace_cons_of_ne hcs ih

theorem noDoubleSpace_map {g : Char → Char} (hg : ∀ c, g c = ' ' ↔ c = ' ')
    (l : List Char) : noDoubleSpace (l.map g) = noDoubleSpace l := by
  induction l with
  | nil => rfl
  | cons c rest ih =>
    cases rest with
    | nil => rfl
    | cons d r =>
      by_cases hcd : c = ' ' ∧ d = ' '
      · have : g c = ' ' ∧ g d = ' ' := ⟨(hg c).mpr hcd.1, (hg d).mpr hcd.2⟩
        simp only [List.map_cons, noDoubleSpace, if_pos hcd, if_pos this]
      · have : ¬(g c = ' ' ∧ g d = ' ') := by
          intro hh
          exact hcd ⟨(hg c).mp hh.1, (hg d).mp hh.2⟩
        simp only [List.map_cons, noDoubleSpace, if_neg hcd, if_neg this]
        simpa using ih

theorem replaceRuns_map_congr {p : Char → Bool} {f : Char → Char} {repl : List Char}
    (h1 : ∀ c, p (f c) = p c) (h2 : ∀ c, p c = false → f c = c) (l : List Char) :
    replaceRunsWith p repl (l.map f) = replaceRunsWith p repl l := by
  induction l with
  | nil => rfl
  | cons c rest ih =>
    by_cases hc : p c
    · have hfc : p (f c) = true := by rw [h1]; exact hc
      cases rest with
      | nil => simp [replaceRunsWith, hc, hfc]
      | cons d r =>
        by_cases hd : p d
        · have hfd : p (f d) = true := by rw [h1]; exact hd
          rw [show replaceRunsWith p repl ((c :: d :: r).map f) =
              replaceRunsWith p repl ((d :: r).map f) by
            simp [replaceRunsWith, hfc, hfd]]
          rw [show replaceRunsWith p repl (c :: d :: r) =
              replaceRunsWith p repl (d :: r) by simp [replaceRunsWith, hc, hd]]
          exact ih
        · have hfd : p (f d) = false := by rw [h1]; exact Bool.of_not_eq_true hd
          rw [show replaceRunsWith p repl ((c :: d :: r).map f) =
              repl ++ replaceRunsWith p repl ((d :: r).map f) by
            simp [replaceRunsWith, hfc, hfd]]
          rw [show replaceRunsWith p repl (c :: d :: r) =
              repl ++ replaceRunsWith p repl (d :: r) by simp [replaceRunsWith, hc, hd]]
          rw [ih]
    · have hc0 : p c = false := Bool.of_not_eq_true hc
      have hfc : p (f c) = false := by rw [h1]; exact hc0
      rw [show replaceRunsWith p repl ((c :: rest).map f) =
          f c :: replaceRunsWith p repl (rest.map f) by simp [replaceRunsWith, hfc]]
      rw [show replaceRunsWith p repl (c :: rest) = c :: replaceRunsWith p repl rest by
        simp [replaceRunsWith, hc0]]
      rw [h2 c hc0, ih]

theorem normalizeTitle_def (arg : List Char) :
    normalizeTitle arg =
      strLower (replaceRunsWith (fun c => decide (c = ' ')) [' ']
        (replaceRunsWith (fun c => !isAllowedChar c) [' '] arg)) := rfl

theorem normalizeTitle_head_space (s : List Char) :
    (normalizeTitle s).head? = some ' ' ↔
      ∃ c, s.head? = some c ∧ isAllowedChar c = false := by
  rw [normalizeTitle_def]
  unfold strLower
  rw [List.head?_map]
  constructor
  · intro h
    obtain ⟨c2, hc2, hl⟩ := Option.map_eq_some'.mp h
    rw [(asciiLower_space_iff c2).mp hl] at hc2
    obtain ⟨c1, hc1, hp1⟩ := (replaceRuns_head (by simp) _).mp hc2
    have hc1s : c1 = ' ' := by simpa using hp1
    rw [hc1s] at hc1
    obtain ⟨c, hc, hp⟩ := (replaceRuns_head (by simp [isAllowedChar, apost]) _).mp hc1
    exact ⟨c, hc, by simpa using hp⟩
  · intro ⟨c, hc, hall⟩
    have h1 : (replaceRunsWith (fun c => !isAllowedChar c) [' '] s).head? = some ' ' :=
      (replaceRuns_head (by simp [isAllowedChar, apost]) _).mpr ⟨c, hc, by simp [hall]⟩
    have h2 : (replaceRunsWith (fun c => decide (c = ' ')) [' ']
        (replaceRunsWith (fun c => !isAllowedChar c) [' '] s)).head? = some ' ' :=
      (replaceRuns_head (by simp) _).mpr ⟨' ', h1, by simp⟩
    rw [h2]
    simp [asciiLower_space_iff]

/-- C6 amended: normalize replaces runs of characters outside the allowed
class by one space, collapses space runs, and lower-cases, but performs no
trim: the output begins with a space exactly when the input begins with a
disallowed character; no double spaces and no uppercase letters remain, and
parenthesis-vs-bracket style does not affect the result. -/
theorem c6_normalize_no_trim (s : List Char) :
    ((normalizeTitle s).head? = some ' ' ↔
        ∃ c, s.head? = some c ∧ isAllowedChar c = false)
    ∧ noDoubleSpace (normalizeTitle s) = true
    ∧ (∀ c ∈ normalizeTitle s, ¬(65 ≤ c.toNat ∧ c.toNat ≤ 90))
    ∧ normalizeTitle (s.map parensToBrackets) = normalizeTitle s := by
  refine ⟨normalizeTitle_head_space s, ?_, ?_, ?_⟩
  · rw [normalizeTitle_def]
    unfold strLower
    rw [noDoubleSpace_map asciiLower_space_iff]
    exact replaceRuns_noDouble (by simp) _
  · intro c hc
    rw [normalizeTitle_def] at hc
    unfold strLower at hc
    obtain ⟨c0, _, hrw⟩ := List.mem_map.mp hc
    rw [← hrw]
    exact asciiLower_not_upper c0
  · rw [normalizeTitle_def, normalizeTitle_def]
    rw [replaceRuns_map_congr ?h1 ?h2]
    case h1 =>
      intro c
      by_cases h₁ : c = '('
      · rw [h₁]; decide
      · by_cases h₂ : c = ')'
        · rw [h₂]; decide
        · rw [show parensToBrackets c = c by simp [parensToBrackets, h₁, h₂]]
    case h2 =>
      intro c hpc
      have hall : isAllowedChar c = true := by simpa using hpc
      have h₁ : c ≠ '(' := fun he => by rw [he] at hall; exact absurd hall (by decide)
      have h₂ : c ≠ ')' := fun he => by rw [he] at hall; exact absurd hall (by decide)
      simp [parensToBrackets, h₁, h₂]

/-- C6 counterexample: `normalizeTitle` does not trim; an input starting
with a stripped character yields an output with leading whitespace. -/
theorem c6_counterexample :
    normalizeTitle "-Abc".toList = " abc".toList
    ∧ (normalizeTitle "-Abc".toList).head? = some ' ' := by
  constructor <;> decide

/-- C3: the code contradicts its own documentation: `removeSuffixClause`
compares `distilled[:len-1]` (all but the last byte) with the delimiter
instead of the last byte, so the trailing parenthetical clause of
"album (remastered)" is never stripped and the liberal comparison fails. -/
theorem c3_suffix_clause_not_removed :
    removeSuffixClause "album (remastered)".toList '(' ')'
        = some "album (remastered)".toList
    ∧ simplifyTitle "album (remastered)".toList = some "album (remastered)".toList
    ∧ isEqual [] "Album".toList "Album (Remastered)".toList true = some false := by
  exact ⟨by decide, by decide, by decide⟩

/-- C10: `removeSuffixClause` evaluates `distilled[:len(distilled)-1]`
before any emptiness check, so the empty string and whitespace-only strings
make the slice bound negative and the Go code panics (modelled as `none`);
the liberal comparison is therefore not defined on all inputs. -/
theorem c10_empty_input_panics :
    removeSuffixClause [] '(' ')' = none
    ∧ removeSuffixClause " ".toList '(' ')' = none
    ∧ simplifyTitle [] = none
    ∧ isEqual [] [] [] true = none := by
  exact ⟨by decide, by decide, by decide, by decide⟩

theorem searchArtistsLoop_one (pages : List (List ArtistEntry)) (name : List Char) :
    searchArtistsLoop pages name 0 1 [] =
      if (pages.getD 0 []).length = 0 then none
      else some ((pages.getD 0 []).filterMap fun a =>
        if strLower a.name = name then some a.id else none) := by
  by_cases h : (pages.getD 0 []).length = 0 <;>
    simp [searchArtistsLoop, h]

theorem searchSpotifyArtists_cache_miss (pages : List (List ArtistEntry))
    (cache : ArtistCache) (name : List Char) (hmiss : lookupA name cache = none) :
    searchSpotifyArtists pages cache name =
      if (pages.getD 0 []).length = 0 then (.noArtistsPanic, cache)
      else if 0 < ((pages.getD 0 []).filterMap fun a =>
          if strLower a.name = name then some a.id else none).length then
        (.ok ((pages.getD 0 []).filterMap fun a =>
            if strLower a.name = name then some a.id else none),
          (name, (pages.getD 0 []).filterMap fun a =>
            if strLower a.name = name then some a.id else none) :: cache)
      else (.artistNotFound, cache) := by
  unfold searchSpotifyArtists
  rw [show maxPages = 1 from rfl, searchArtistsLoop_one]
  rw [show (if allowCache then lookupA name cache else none) = none by
    simp [allowCache, hmiss]]
  by_cases h : (pages.getD 0 []).length = 0
  · rw [if_pos h, if_pos h]
  · rw [if_neg h, if_neg h]

/-- C4 amended: the artist search scans only the first result page
(`maxPages = 1`) and reports ArtistNotFound exactly when that non-empty
first page has no exact lower-cased match, regardless of later pages. -/
theorem c4_single_page_only (pages : List (List ArtistEntry)) (cache : ArtistCache)
    (name : List Char) (hmiss : lookupA name cache = none) :
    searchSpotifyArtists pages cache name
        = searchSpotifyArtists [pages.getD 0 []] cache name
    ∧ ((searchSpotifyArtists pages cache name).1 = .artistNotFound ↔
        pages.getD 0 [] ≠ []
        ∧ ∀ a ∈ pages.getD 0 [], strLower a.name ≠ name) := by
  have h1 := searchSpotifyArtists_cache_miss pages cache name hmiss
  have h2 := searchSpotifyArtists_cache_miss [pages.getD 0 []] cache name hmiss
  have hsame : [pages.getD 0 []].getD 0 ([] : List ArtistEntry) = pages.getD 0 [] := rfl
  rw [hsame] at h2
  refine ⟨by rw [h1, h2], ?_⟩
  rw [h1]
  by_cases hp : (pages.getD 0 []).length = 0
  · have hpe : pages.getD 0 [] = [] := List.length_eq_zero.mp hp
    rw [if_pos hp]
    constructor
    · intro hcon
      simp at hcon
    · intro hcon
      exact absurd hpe hcon.1
  · have hpe : pages.getD 0 [] ≠ [] := fun he => hp (by rw [he]; rfl)
    rw [if_neg hp]
    by_cases hm : 0 < ((pages.getD 0 []).filterMap fun a =>
        if strLower a.name = name then some a.id else none).length
    · rw [if_pos hm]
      constructor
      · intro hcon
        simp at hcon
      · intro hcon
        exfalso
        have hz : ((pages.getD 0 []).filterMap fun a =>
            if strLower a.name = name then some a.id else none) = [] := by
          rw [List.filterMap_eq_nil_iff]
          intro a ha
          simp [hcon.2 a ha]
        rw [hz] at hm
        simp at hm
    · rw [if_neg hm]
      constructor
      · intro _
        refine ⟨hpe, ?_⟩
        have hz : ((pages.getD 0 []).filterMap fun a =>
            if strLower a.name = name then some a.id else none) = [] :=
          List.length_eq_zero.mp (Nat.eq_zero_of_not_pos hm)
        intro a ha hname
        have hnone := List.filterMap_eq_nil_iff.mp hz a ha
        simp [hname] at hnone
      · intro _
        rfl


/-- C4 counterexample: with the match sitting on the second available page,
the search reports ArtistNotFound without ever scanning that page, although
the catalog still had pages to offer. -/
theorem c4_counterexample :
    (searchSpotifyArtists
        [[(⟨"a".toList, "id1"⟩ : ArtistEntry)], [(⟨"b".toList, "id2"⟩ : ArtistEntry)]] [] "b".toList).1
      = .artistNotFound
    ∧ ([[(⟨"a".toList, "id1"⟩ : ArtistEntry)], [(⟨"b".toList, "id2"⟩ : ArtistEntry)]].getD 1 []).any
        (fun a => strLower a.name = "b".toList) = true := by
  exact ⟨by decide, by decide⟩

/-- C4 witness. -/
theorem c4_single_page_only_witness :
    lookupA "b".toList ([] : ArtistCache) = none
    ∧ (searchSpotifyArtists [[(⟨"a".toList, "id1"⟩ : ArtistEntry)]] [] "b".toList
          = searchSpotifyArtists [[[(⟨"a".toList, "id1"⟩ : ArtistEntry)]].getD 0 []] [] "b".toList
        ∧ ((searchSpotifyArtists [[(⟨"a".toList, "id1"⟩ : ArtistEntry)]] [] "b".toList).1
              = .artistNotFound ↔
            [[(⟨"a".toList, "id1"⟩ : ArtistEntry)]].getD 0 [] ≠ []
            ∧ ∀ a ∈ [[(⟨"a".toList, "id1"⟩ : ArtistEntry)]].getD 0 [],
                strLower a.name ≠ "b".toList)) :=
  ⟨by decide, c4_single_page_only [[(⟨"a".toList, "id1"⟩ : ArtistEntry)]] [] "b".toList (by decide)⟩

/-- C7: on a cache miss, every exact lower-cased match of the scanned page is
returned as a candidate (not just the first), and the full candidate list is
cached under the queried name. -/
theorem c7_all_candidates_cached (pages : List (List ArtistEntry))
    (cache : ArtistCache) (name : List Char)
    (hmiss : lookupA name cache = none)
    (hne : (pages.getD 0 []).filterMap
        (fun a => if strLower a.name = name then some a.id else none) ≠ []) :
    searchSpotifyArtists pages cache name
      = (.ok ((pages.getD 0 []).filterMap fun a =>
            if strLower a.name = name then some a.id else none),
         (name, (pages.getD 0 []).filterMap fun a =>
            if strLower a.name = name then some a.id else none) :: cache)
    ∧ lookupA name (searchSpotifyArtists pages cache name).2
        = some ((pages.getD 0 []).filterMap fun a =>
            if strLower a.name = name then some a.id else none) := by
  have hp : ¬(pages.getD 0 []).length = 0 := by
    intro hz
    rw [List.length_eq_zero.mp hz] at hne
    simp at hne
  have hm : 0 < ((pages.getD 0 []).filterMap fun a =>
      if strLower a.name = name then some a.id else none).length :=
    List.length_pos.mpr hne
  have heq := searchSpotifyArtists_cache_miss pages cache name hmiss
  rw [if_neg hp, if_pos hm] at heq
  refine ⟨heq, ?_⟩
  rw [heq]
  simp [lookupA]

/-- C7 witness: two distinct destination artists registered under the same
display name are both returned and cached. -/
theorem c7_all_candidates_cached_witness :
    lookupA "x".toList ([] : ArtistCache) = none
    ∧ ([[(⟨"x".toList, "id1"⟩ : ArtistEntry), (⟨"x".toList, "id2"⟩ : ArtistEntry)]].getD 0 []).filterMap
        (fun a => if strLower a.name = "x".toList then some a.id else none) ≠ []
    ∧ (searchSpotifyArtists [[(⟨"x".toList, "id1"⟩ : ArtistEntry), (⟨"x".toList, "id2"⟩ : ArtistEntry)]] []
          "x".toList
        = (.ok (([[(⟨"x".toList, "id1"⟩ : ArtistEntry), (⟨"x".toList, "id2"⟩ : ArtistEntry)]].getD 0
              []).filterMap fun a =>
              if strLower a.name = "x".toList then some a.id else none),
           ("x".toList, ([[(⟨"x".toList, "id1"⟩ : ArtistEntry), (⟨"x".toList, "id2"⟩ : ArtistEntry)]].getD 0
              []).filterMap fun a =>
              if strLower a.name = "x".toList then some a.id else none) :: [])
      ∧ lookupA "x".toList
          (searchSpotifyArtists [[(⟨"x".toList, "id1"⟩ : ArtistEntry), (⟨"x".toList, "id2"⟩ : ArtistEntry)]] []
            "x".toList).2
        = some (([[(⟨"x".toList, "id1"⟩ : ArtistEntry), (⟨"x".toList, "id2"⟩ : ArtistEntry)]].getD 0
            []).filterMap fun a =>
            if strLower a.name = "x".toList then some a.id else none)) :=
  ⟨by decide, by decide,
    c7_all_candidates_cached [[(⟨"x".toList, "id1"⟩ : ArtistEntry), (⟨"x".toList, "id2"⟩ : ArtistEntry)]] []
      "x".toList (by decide) (by decide)⟩


theorem findAlbumMatch_mem {name : List Char} {liberal : Bool}
    {albums : List AlbumEntry} {a : AlbumEntry}
    (h : findAlbumMatch name liberal albums = some (some a)) :
    a ∈ albums ∧ isEqual albumTypeName (strLower a.name) name liberal = some true := by
  induction albums with
  | nil => simp [findAlbumMatch] at h
  | cons b rest ih =>
    unfold findAlbumMatch at h
    cases he : isEqual albumTypeName (strLower b.name) name liberal with
    | none =>
      rw [he] at h
      simp at h
    | some tv =>
      rw [he] at h
      cases tv with
      | true =>
        simp at h
        rw [← h]
        exact ⟨List.mem_cons_self b rest, he⟩
      | false =>
        simp at h
        have hr := ih h
        exact ⟨List.mem_cons_of_mem b hr.1, hr.2⟩

/-- C8: a liberal (fuzzy) album resolution never writes the album cache:
the returned cache is unchanged; a strict resolution either leaves the
cache unchanged or adds the identifier of an album whose name passed the
strict `isEqual` comparison, keyed by (artistId, albumName). -/
theorem c8_liberal_never_cached (albums : List AlbumEntry) (cache : AlbumCache)
    (artistId : String) (name : List Char) (dp dp2 : Bool) :
    (getSpotifyAlbumId albums cache artistId name true dp).2 = cache
    ∧ ((getSpotifyAlbumId albums cache artistId name false dp2).2 = cache
       ∨ ∃ a, a ∈ albums
           ∧ isEqual albumTypeName (strLower a.name) name false = some true
           ∧ (getSpotifyAlbumId albums cache artistId name false dp2).2
               = ((artistId, name), a.id) :: cache) := by
  constructor
  · unfold getSpotifyAlbumId
    cases hm : findAlbumMatch name true albums with
    | none => simp [allowCache, hm]
    | some r =>
      cases r with
      | none => simp [allowCache, hm]
      | some a => simp [allowCache, hm]
  · unfold getSpotifyAlbumId
    cases hlk : lookupA (artistId, name) cache with
    | some id => left; simp [allowCache, hlk]
    | none =>
      cases hm : findAlbumMatch name false albums with
      | none => left; simp [allowCache, hlk, hm]
      | some r =>
        cases r with
        | none => left; simp [allowCache, hlk, hm]
        | some a =>
          right
          have hmem := findAlbumMatch_mem hm
          exact ⟨a, hmem.1, hmem.2, by simp [allowCache, hlk, hm]⟩


theorem albumPass_of_firstSuccess_some (getAlbum : String → Bool → AlbumOutcome)
    (getTracks : String → FoundTracks × List (List Char)) (liberal : Bool)
    (ids : List String) (ft : FoundTracks) (mt : List (List Char))
    (hnf : ∀ a ∈ ids, getAlbum a liberal ≠ .fatalPanic)
    (hS : firstSuccessfulResolution getAlbum getTracks liberal ids = some (ft, mt)) :
    ∀ acc, albumPass getAlbum getTracks liberal ids acc = .success ft mt := by
  induction ids with
  | nil => simp [firstSuccessfulResolution] at hS
  | cons x rest ih =>
    intro acc
    have hnfr : ∀ a ∈ rest, getAlbum a liberal ≠ .fatalPanic := fun a ha =>
      hnf a (List.mem_cons_of_mem x ha)
    cases hx : getAlbum x liberal with
    | albumNotFound =>
      simp only [firstSuccessfulResolution, hx] at hS
      simp only [albumPass, hx]
      exact ih hnfr hS acc
    | fatalPanic => exact absurd hx (hnf x (List.mem_cons_self x rest))
    | ok albumId =>
      simp only [firstSuccessfulResolution, hx] at hS
      simp only [albumPass, hx]
      by_cases hft : (getTracks albumId).1.length = 0
      · rw [if_pos hft] at hS
        rw [if_pos hft]
        exact ih hnfr hS _
      · rw [if_neg hft] at hS
        rw [if_neg hft]
        simp at hS
        rw [hS]

theorem albumPass_of_firstSuccess_none (getAlbum : String → Bool → AlbumOutcome)
    (getTracks : String → FoundTracks × List (List Char)) (liberal : Bool)
    (ids : List String)
    (hnf : ∀ a ∈ ids, getAlbum a liberal ≠ .fatalPanic)
    (hS : firstSuccessfulResolution getAlbum getTracks liberal ids = none) :
    ∀ acc, ∃ acc2, albumPass getAlbum getTracks liberal ids acc = .fallthrough acc2
      ∧ (acc2 = none ↔ acc = none ∧ ∀ a ∈ ids, getAlbum a liberal = .albumNotFound) := by
  induction ids with
  | nil =>
    intro acc
    exact ⟨acc, rfl, by simp⟩
  | cons x rest ih =>
    intro acc
    have hnfr : ∀ a ∈ rest, getAlbum a liberal ≠ .fatalPanic := fun a ha =>
      hnf a (List.mem_cons_of_mem x ha)
    cases hx : getAlbum x liberal with
    | fatalPanic => exact absurd hx (hnf x (List.mem_cons_self x rest))
    | albumNotFound =>
      simp only [firstSuccessfulResolution, hx] at hS
      simp only [albumPass, hx]
      obtain ⟨acc2, hpass, hiff⟩ := ih hnfr hS acc
      refine ⟨acc2, hpass, ?_⟩
      rw [hiff]
      constructor
      · intro hand
        refine ⟨hand.1, ?_⟩
        intro a ha
        rcases List.mem_cons.mp ha with he | hr
        · rw [he]; exact hx
        · exact hand.2 a hr
      · intro hand
        exact ⟨hand.1, fun a ha => hand.2 a (List.mem_cons_of_mem x ha)⟩
    | ok albumId =>
      simp only [firstSuccessfulResolution, hx] at hS
      simp only [albumPass, hx]
      by_cases hft : (getTracks albumId).1.length = 0
      · rw [if_pos hft] at hS
        rw [if_pos hft]
        obtain ⟨acc2, hpass, hiff⟩ := ih hnfr hS _
        refine ⟨acc2, hpass, ?_⟩
        rw [hiff]
        constructor
        · intro hand
          exact absurd hand.1 (by simp)
        · intro hand
          have := hand.2 x (List.mem_cons_self x rest)
          rw [hx] at this
          simp at this
      · rw [if_neg hft] at hS
        simp at hS

/-- C2 amended: all candidates are tried strictly first; the liberal pass
runs only when no strict combination yields a track; the returned result is
the first (candidate, pass) combination yielding at least one resolved
track; and the call fails with AlbumNotFound exactly when no candidate
resolves an album on either pass — a combination that resolves an album but
yields zero tracks makes the call return an empty result without error. -/
theorem c2_first_success_policy (getAlbum : String → Bool → AlbumOutcome)
    (getTracks : String → FoundTracks × List (List Char)) (artistIds : List String)
    (hnf : ∀ a ∈ artistIds, ∀ lib, getAlbum a lib ≠ .fatalPanic) :
    (GetSpotifyTrackIdsWithNames getAlbum getTracks artistIds = .albumNotFoundErr
        ↔ ∀ a ∈ artistIds, ∀ lib, getAlbum a lib = .albumNotFound)
    ∧ (∀ ft mt,
        firstSuccessfulResolution getAlbum getTracks false artistIds = some (ft, mt) →
        GetSpotifyTrackIdsWithNames getAlbum getTracks artistIds = .ok ft mt)
    ∧ (firstSuccessfulResolution getAlbum getTracks false artistIds = none →
        ∀ ft mt,
        firstSuccessfulResolution getAlbum getTracks true artistIds = some (ft, mt) →
        GetSpotifyTrackIdsWithNames getAlbum getTracks artistIds = .ok ft mt) := by
  refine ⟨?_, ?_, ?_⟩
  · constructor
    · intro hres
      unfold GetSpotifyTrackIdsWithNames at hres
      cases hS : firstSuccessfulResolution getAlbum getTracks false artistIds with
      | some r =>
        rw [albumPass_of_firstSuccess_some getAlbum getTracks false artistIds r.1 r.2
          (fun a ha => hnf a ha false) (by rw [hS]) none] at hres
        simp at hres
      | none =>
        obtain ⟨acc1, hpass1, hiff1⟩ :=
          albumPass_of_firstSuccess_none getAlbum getTracks false artistIds
            (fun a ha => hnf a ha false) hS none
        rw [hpass1] at hres
        dsimp only at hres
        cases hL : firstSuccessfulResolution getAlbum getTracks true artistIds with
        | some r =>
          rw [albumPass_of_firstSuccess_some getAlbum getTracks true artistIds r.1 r.2
            (fun a ha => hnf a ha true) (by rw [hL]) acc1] at hres
          simp at hres
        | none =>
          obtain ⟨acc2, hpass2, hiff2⟩ :=
            albumPass_of_firstSuccess_none getAlbum getTracks true artistIds
              (fun a ha => hnf a ha true) hL acc1
          rw [hpass2] at hres
          have hacc2 : acc2 = none := by
            cases acc2 with
            | none => rfl
            | some r => simp at hres
          have hand := hiff2.mp hacc2
          have hacc1 := hand.1
          have hand1 := (hiff1.mp hacc1).2
          intro a ha lib
          cases lib with
          | false => exact hand1 a ha
          | true => exact hand.2 a ha
    · intro hall
      have hS : firstSuccessfulResolution getAlbum getTracks false artistIds = none := by
        clear hnf
        induction artistIds with
        | nil => rfl
        | cons x rest ih =>
          unfold firstSuccessfulResolution
          rw [hall x (List.mem_cons_self x rest) false]
          exact ih fun a ha lib => hall a (List.mem_cons_of_mem x ha) lib
      have hL : firstSuccessfulResolution getAlbum getTracks true artistIds = none := by
        clear hnf hS
        induction artistIds with
        | nil => rfl
        | cons x rest ih =>
          unfold firstSuccessfulResolution
          rw [hall x (List.mem_cons_self x rest) true]
          exact ih fun a ha lib => hall a (List.mem_cons_of_mem x ha) lib
      obtain ⟨acc1, hpass1, hiff1⟩ :=
        albumPass_of_firstSuccess_none getAlbum getTracks false artistIds
          (fun a ha => hnf a ha false) hS none
      obtain hacc1 : acc1 = none :=
        hiff1.mpr ⟨rfl, fun a ha => hall a ha false⟩
      obtain ⟨acc2, hpass2, hiff2⟩ :=
        albumPass_of_firstSuccess_none getAlbum getTracks true artistIds
          (fun a ha => hnf a ha true) hL acc1
      obtain hacc2 : acc2 = none :=
        hiff2.mpr ⟨hacc1, fun a ha => hall a ha true⟩
      unfold GetSpotifyTrackIdsWithNames
      rw [hpass1]
      dsimp only
      rw [hpass2, hacc2]
  · intro ft mt hS
    unfold GetSpotifyTrackIdsWithNames
    rw [albumPass_of_firstSuccess_some getAlbum getTracks false artistIds ft mt
      (fun a ha => hnf a ha false) hS none]
  · intro hS ft mt hL
    unfold GetSpotifyTrackIdsWithNames
    obtain ⟨acc1, hpass1, _⟩ :=
      albumPass_of_firstSuccess_none getAlbum getTracks false artistIds
        (fun a ha => hnf a ha false) hS none
    rw [hpass1]
    dsimp only
    rw [albumPass_of_firstSuccess_some getAlbum getTracks true artistIds ft mt
      (fun a ha => hnf a ha true) hL acc1]


/-- C2 counterexample: one candidate artist whose album resolves strictly
but yields zero tracks: no (artist, album) combination yields any track,
yet the call returns an empty success instead of failing with
AlbumNotFound. -/
theorem c2_counterexample :
    firstSuccessfulResolution
        (fun _ lib => if lib then AlbumOutcome.albumNotFound else AlbumOutcome.ok "alb")
        (fun _ => ([], [['t']])) false ["a"] = none
    ∧ firstSuccessfulResolution
        (fun _ lib => if lib then AlbumOutcome.albumNotFound else AlbumOutcome.ok "alb")
        (fun _ => ([], [['t']])) true ["a"] = none
    ∧ GetSpotifyTrackIdsWithNames
        (fun _ lib => if lib then AlbumOutcome.albumNotFound else AlbumOutcome.ok "alb")
        (fun _ => ([], [['t']])) ["a"] = .ok [] [['t']] := by
  exact ⟨by decide, by decide, by decide⟩

/-- C2 witness. -/
theorem c2_first_success_policy_witness :
    (∀ a ∈ ["a1"], ∀ lib,
        (fun (_ : String) (_ : Bool) => AlbumOutcome.ok "alb") a lib
          ≠ AlbumOutcome.fatalPanic)
    ∧ ((GetSpotifyTrackIdsWithNames (fun _ _ => AlbumOutcome.ok "alb")
          (fun _ => ([("t1", ['n'])], [])) ["a1"] = .albumNotFoundErr
        ↔ ∀ a ∈ ["a1"], ∀ lib,
            (fun (_ : String) (_ : Bool) => AlbumOutcome.ok "alb") a lib
              = AlbumOutcome.albumNotFound)
      ∧ (∀ ft mt,
          firstSuccessfulResolution (fun _ _ => AlbumOutcome.ok "alb")
            (fun _ => ([("t1", ['n'])], [])) false ["a1"] = some (ft, mt) →
          GetSpotifyTrackIdsWithNames (fun _ _ => AlbumOutcome.ok "alb")
            (fun _ => ([("t1", ['n'])], [])) ["a1"] = .ok ft mt)
      ∧ (firstSuccessfulResolution (fun _ _ => AlbumOutcome.ok "alb")
            (fun _ => ([("t1", ['n'])], [])) false ["a1"] = none →
          ∀ ft mt,
          firstSuccessfulResolution (fun _ _ => AlbumOutcome.ok "alb")
            (fun _ => ([("t1", ['n'])], [])) true ["a1"] = some (ft, mt) →
          GetSpotifyTrackIdsWithNames (fun _ _ => AlbumOutcome.ok "alb")
            (fun _ => ([("t1", ['n'])], [])) ["a1"] = .ok ft mt)) :=
  ⟨by intro a ha lib; simp,
    c2_first_success_policy (fun _ _ => AlbumOutcome.ok "alb")
      (fun _ => ([("t1", ['n'])], [])) ["a1"] (by intro a ha lib; simp)⟩


theorem importFold_all_ok (lookup : List Char → List Char → List Char → TrackLookup)
    (onlyArtists : List (List Char)) (spotifyIndex : List String) :
    ∀ (tracks : List MetadataTrackDetail) (acc : BatchAcc),
      (∀ t ∈ tracks, ∃ id, trackLookupOf lookup t = .ok id) →
      acc.missingArtists = [] → acc.missingAlbums = [] →
      ∃ acc2,
        tracks.foldlM (importTrackStep lookup onlyArtists spotifyIndex) acc = some acc2
        ∧ acc2.run.idList
            = acc.run.idList ++ resolvedAdditions lookup onlyArtists spotifyIndex tracks
        ∧ acc2.run.missing = acc.run.missing := by
  intro tracks
  induction tracks with
  | nil =>
    intro acc _ _ _
    exact ⟨acc, rfl, by simp [resolvedAdditions], rfl⟩
  | cons t rest ih =>
    intro acc hok hma hmb
    obtain ⟨id, hid⟩ := hok t (List.mem_cons_self t rest)
    have hokr : ∀ u ∈ rest, ∃ i, trackLookupOf lookup u = .ok i := fun u hu =>
      hok u (List.mem_cons_of_mem t hu)
    simp only [trackLookupOf] at hid
    by_cases hfound : (getNapsterNormalizedTrack t).artistNames.any
        (fun anTrack => onlyArtists.any fun anAllowed => anAllowed = anTrack) = true
    · by_cases hidx : id ∈ spotifyIndex
      · have hstep : importTrackStep lookup onlyArtists spotifyIndex acc t = some acc := by
          unfold importTrackStep
          dsimp only
          rw [hfound, hid]
          simp [hma, hmb, hidx]
        obtain ⟨acc2, hfold, hlist, hmiss⟩ := ih acc hokr hma hmb
        refine ⟨acc2, ?_, ?_, hmiss⟩
        · simp only [List.foldlM, hstep]
          exact hfold
        · rw [hlist]
          have : resolvedAdditions lookup onlyArtists spotifyIndex (t :: rest)
              = resolvedAdditions lookup onlyArtists spotifyIndex rest := by
            simp only [resolvedAdditions, List.filterMap_cons, hfound, trackLookupOf]
            rw [hid]
            simp [hidx]
          rw [this]
      · have hstep : importTrackStep lookup onlyArtists spotifyIndex acc t =
            some { acc with run :=
              { acc.run with idList := acc.run.idList ++ [id] } } := by
          unfold importTrackStep
          dsimp only
          rw [hfound, hid]
          simp [hma, hmb, hidx]
        obtain ⟨acc2, hfold, hlist, hmiss⟩ :=
          ih { acc with run := { acc.run with idList := acc.run.idList ++ [id] } }
            hokr hma hmb
        refine ⟨acc2, ?_, ?_, hmiss⟩
        · simp only [List.foldlM, hstep]
          exact hfold
        · rw [hlist]
          have : resolvedAdditions lookup onlyArtists spotifyIndex (t :: rest)
              = id :: resolvedAdditions lookup onlyArtists spotifyIndex rest := by
            simp only [resolvedAdditions, List.filterMap_cons, hfound, trackLookupOf]
            rw [hid]
            simp [hidx]
          rw [this]
          simp
    · have hfound2 : ((getNapsterNormalizedTrack t).artistNames.any
          (fun anTrack => onlyArtists.any fun anAllowed => anAllowed = anTrack)) = false :=
        Bool.of_not_eq_true hfound
      have hstep : importTrackStep lookup onlyArtists spotifyIndex acc t =
          some { acc with run := { acc.run with
            skipped := acc.run.skipped + 1
            artistNotices := (getNapsterNormalizedTrack t).artistNames.foldl
              (fun ns an => insertNotice an ns) acc.run.artistNotices } } := by
        unfold importTrackStep
        dsimp only
        rw [hfound2]
        simp
      obtain ⟨acc2, hfold, hlist, hmiss⟩ :=
        ih { acc with run := { acc.run with
          skipped := acc.run.skipped + 1
          artistNotices := (getNapsterNormalizedTrack t).artistNames.foldl
            (fun ns an => insertNotice an ns) acc.run.artistNotices } } hokr hma hmb
      refine ⟨acc2, ?_, ?_, hmiss⟩
      · simp only [List.foldlM, hstep]
        exact hfold
      · rw [hlist]
        have : resolvedAdditions lookup onlyArtists spotifyIndex (t :: rest)
            = resolvedAdditions lookup onlyArtists spotifyIndex rest := by
          simp only [resolvedAdditions, List.filterMap_cons, hfound2]
          simp
        rw [this]

theorem buildSpotifyIndex_mem (tracks : List String) (index : List String) (id : String) :
    id ∈ buildSpotifyIndex index tracks ↔ id ∈ index ∨ id ∈ tracks := by
  induction tracks generalizing index with
  | nil => simp [buildSpotifyIndex]
  | cons t rest ih =>
    unfold buildSpotifyIndex at ih ⊢
    by_cases ht : t ∈ index
    · rw [List.foldl_cons, if_pos ht, ih]
      constructor
      · intro hc
        rcases hc with hc | hc
        · exact Or.inl hc
        · exact Or.inr (List.mem_cons_of_mem t hc)
      · intro hc
        rcases hc with hc | hc
        · exact Or.inl hc
        · rcases List.mem_cons.mp hc with he | hr
          · exact Or.inl (he ▸ ht)
          · exact Or.inr hr
    · rw [List.foldl_cons, if_neg ht, ih]
      constructor
      · intro hc
        rcases hc with hc | hc
        · rcases List.mem_append.mp hc with hi | hone
          · exact Or.inl hi
          · exact Or.inr (List.mem_cons.mpr (Or.inl (List.mem_singleton.mp hone)))
        · exact Or.inr (List.mem_cons_of_mem t hc)
      · intro hc
        rcases hc with hc | hc
        · exact Or.inl (List.mem_append.mpr (Or.inl hc))
        · rcases List.mem_cons.mp hc with he | hr
          · exact Or.inl (List.mem_append.mpr (Or.inr (List.mem_singleton.mpr he)))
          · exact Or.inr hr


/-- C1: when every track of a fetched page resolves successfully, the
collector gains exactly the resolved identifiers that are not already in
the existing-playlist index, in discovery order; identifiers already in the
index built by `buildSpotifyIndex` during preload are silently skipped
(no diagnostics recorded, nothing added). -/
theorem c1_index_filtering (lookup : List Char → List Char → List Char → TrackLookup)
    (onlyArtists : List (List Char)) (playlistTracks : List String)
    (run : RunState) (tracks : List MetadataTrackDetail)
    (h1 : onlyArtists ≠ [])
    (h2 : ∀ t ∈ tracks, ∃ id, trackLookupOf lookup t = .ok id) :
    (∃ run2,
      importBatch lookup onlyArtists (buildSpotifyIndex [] playlistTracks) run tracks
        = some (tracks.length, run2)
      ∧ run2.idList = run.idList
          ++ resolvedAdditions lookup onlyArtists (buildSpotifyIndex [] playlistTracks)
              tracks
      ∧ run2.missing = run.missing)
    ∧ (∀ id, id ∈ buildSpotifyIndex [] playlistTracks ↔ id ∈ playlistTracks) := by
  constructor
  · obtain ⟨acc2, hfold, hlist, hmiss⟩ :=
      importFold_all_ok lookup onlyArtists (buildSpotifyIndex [] playlistTracks) tracks
        { run := run, missingArtists := [], missingAlbums := [] } h2 rfl rfl
    refine ⟨acc2.run, ?_, hlist, hmiss⟩
    unfold importBatch
    rw [if_neg fun hz => h1 (List.length_eq_zero.mp hz)]
    rw [hfold]
  · intro id
    rw [buildSpotifyIndex_mem]
    simp

/-- C1 witness: scenario D plus one new track: the identifier already in
the playlist index is excluded, the new one is appended. -/
theorem c1_index_filtering_witness :
    (["x".toList] ≠ ([] : List (List Char)))
    ∧ (∀ t ∈ [(⟨"x".toList, "b".toList, "c".toList⟩ : MetadataTrackDetail),
          ⟨"x".toList, "b".toList, "d".toList⟩],
        ∃ id, trackLookupOf
          (fun _ _ tn => if tn = "c".toList then TrackLookup.ok "z" else TrackLookup.ok "w")
          t = .ok id)
    ∧ ((∃ run2,
        importBatch
          (fun _ _ tn => if tn = "c".toList then TrackLookup.ok "z" else TrackLookup.ok "w")
          ["x".toList] (buildSpotifyIndex [] ["z"]) ⟨0, [], [], []⟩
          [⟨"x".toList, "b".toList, "c".toList⟩, ⟨"x".toList, "b".toList, "d".toList⟩]
          = some (2, run2)
        ∧ run2.idList = [] ++ resolvedAdditions
            (fun _ _ tn => if tn = "c".toList then TrackLookup.ok "z" else TrackLookup.ok "w")
            ["x".toList] (buildSpotifyIndex [] ["z"])
            [⟨"x".toList, "b".toList, "c".toList⟩, ⟨"x".toList, "b".toList, "d".toList⟩]
        ∧ run2.missing = [])
      ∧ (∀ id, id ∈ buildSpotifyIndex [] ["z"] ↔ id ∈ ["z"])) :=
  ⟨by decide,
    by
      intro t ht
      simp only [List.mem_cons, List.not_mem_nil, or_false] at ht
      rcases ht with rfl | rfl
      · exact ⟨"z", by decide⟩
      · exact ⟨"w", by decide⟩,
    c1_index_filtering
      (fun _ _ tn => if tn = "c".toList then TrackLookup.ok "z" else TrackLookup.ok "w")
      ["x".toList] ["z"] ⟨0, [], [], []⟩
      [⟨"x".toList, "b".toList, "c".toList⟩, ⟨"x".toList, "b".toList, "d".toList⟩]
      (by decide)
      (by
        intro t ht
        simp only [List.mem_cons, List.not_mem_nil, or_false] at ht
        rcases ht with rfl | rfl
        · exact ⟨"z", by decide⟩
        · exact ⟨"w", by decide⟩)⟩

/-- C5: the dedup maps `missingArtists`/`missingAlbums` are re-created on
every `importBatch` call, while the `missing` phrase list is threaded
through the whole run: a missing artist favorited on two different fetch
pages is recorded twice, contradicting once-per-distinct-cause (the code
even carries a TODO noting things are "still printing things twice"). -/
theorem c5_duplicate_diagnostics :
    (importBatch (fun _ _ _ => TrackLookup.artistNotFound) ["x".toList] []
        ⟨0, [], [], []⟩ [(⟨"x".toList, "a".toList, "t".toList⟩ : MetadataTrackDetail)]).bind
      (fun r => importBatch (fun _ _ _ => TrackLookup.artistNotFound) ["x".toList] [] r.2
        [(⟨"x".toList, "a".toList, "t".toList⟩ : MetadataTrackDetail)])
      = some (1, ⟨0, [], [mkPhrase1 "x".toList, mkPhrase1 "x".toList], []⟩)
    ∧ List.count (mkPhrase1 "x".toList)
        [mkPhrase1 "x".toList, mkPhrase1 "x".toList] = 2 := by
  exact ⟨by decide, by decide⟩


theorem chunksSpec_ne {ι : Type} (l : List ι) (hl : l ≠ []) :
    chunksSpec l =
      if spotifyBatchSize ≤ l.length then
        l.take spotifyBatchSize :: chunksSpec (l.drop spotifyBatchSize)
      else [l] := by
  cases l with
  | nil => exact absurd rfl hl
  | cons x xs => rw [chunksSpec]

theorem chunkLoop_eq_chunksSpec {ι α : Type} :
    ∀ (l : List (ι × α)) (buf : List ι), buf.length < spotifyBatchSize →
      chunkLoop l buf = chunksSpec (buf ++ l.map Prod.fst) := by
  intro l
  induction l with
  | nil =>
    intro buf hb
    cases buf with
    | nil => simp [chunkLoop, chunksSpec]
    | cons b bs =>
      rw [show chunkLoop ([] : List (ι × α)) (b :: bs) = [b :: bs] by
        simp [chunkLoop]]
      rw [show (b :: bs) ++ ([] : List (ι × α)).map Prod.fst = b :: bs by simp]
      rw [chunksSpec_ne (b :: bs) (by simp)]
      rw [if_neg (Nat.not_le_of_lt hb)]
  | cons hd rest ih =>
    intro buf hb
    obtain ⟨id, info⟩ := hd
    have hcons : buf ++ ((id, info) :: rest).map Prod.fst
        = (buf ++ [id]) ++ rest.map Prod.fst := by simp
    rw [hcons]
    have hstep : chunkLoop ((id, info) :: rest) buf =
        if spotifyBatchSize ≤ (buf ++ [id]).length then
          (buf ++ [id]) :: chunkLoop rest []
        else chunkLoop rest (buf ++ [id]) := by
      rw [chunkLoop]
    rw [hstep]
    by_cases h50 : spotifyBatchSize ≤ (buf ++ [id]).length
    · have hlen : (buf ++ [id]).length = spotifyBatchSize := by
        have hx : (buf ++ [id]).length = buf.length + 1 := by simp
        omega
      rw [if_pos h50]
      rw [ih [] (by simp [spotifyBatchSize])]
      rw [chunksSpec_ne ((buf ++ [id]) ++ rest.map Prod.fst) (by simp)]
      rw [if_pos (by rw [List.length_append, hlen]; omega)]
      rw [List.take_left' hlen, List.drop_left' hlen]
      simp
    · rw [if_neg h50]
      rw [ih (buf ++ [id]) (Nat.lt_of_not_le h50)]


/-- C9 amended: 120 entries are flushed as exactly three add-calls of sizes
50, 50 and 20, transmitting the identifiers in the order of the iteration
sequence handed to the loop; since the loop ranges over a Go map, that
iteration order is unspecified and need not be the discovery order. -/
theorem c9_chunk_sizes {ι α : Type} (entries : List (ι × α))
    (h : entries.length = 120) :
    (addTracksBatched entries).map List.length = [50, 50, 20]
    ∧ (addTracksBatched entries).flatten = entries.map Prod.fst := by
  have hM : (entries.map Prod.fst).length = 120 := by simp [h]
  have he : addTracksBatched entries = chunksSpec (entries.map Prod.fst) := by
    have hr := chunkLoop_eq_chunksSpec entries [] (by simp [spotifyBatchSize])
    simpa [addTracksBatched] using hr
  have hne1 : entries.map Prod.fst ≠ [] := by
    intro hz
    rw [hz] at hM
    simp at hM
  have h1 : chunksSpec (entries.map Prod.fst)
      = (entries.map Prod.fst).take 50
        :: chunksSpec ((entries.map Prod.fst).drop 50) := by
    rw [chunksSpec_ne _ hne1, if_pos (by rw [hM]; decide)]
    rfl
  have hlen2 : ((entries.map Prod.fst).drop 50).length = 70 := by
    simp [hM]
  have hne2 : (entries.map Prod.fst).drop 50 ≠ [] := by
    intro hz
    rw [hz] at hlen2
    simp at hlen2
  have h2 : chunksSpec ((entries.map Prod.fst).drop 50)
      = ((entries.map Prod.fst).drop 50).take 50
        :: chunksSpec (((entries.map Prod.fst).drop 50).drop 50) := by
    rw [chunksSpec_ne _ hne2, if_pos (by rw [hlen2]; decide)]
    rfl
  have hlen3 : (((entries.map Prod.fst).drop 50).drop 50).length = 20 := by
    simp [hM]
  have hne3 : ((entries.map Prod.fst).drop 50).drop 50 ≠ [] := by
    intro hz
    rw [hz] at hlen3
    simp at hlen3
  have h3 : chunksSpec (((entries.map Prod.fst).drop 50).drop 50)
      = [((entries.map Prod.fst).drop 50).drop 50] := by
    rw [chunksSpec_ne _ hne3, if_neg (by rw [hlen3]; decide)]
  rw [he, h1, h2, h3]
  constructor
  · simp only [List.map_cons, List.map_nil, List.length_take]
    rw [hM, hlen2, hlen3]
    decide
  · simp only [List.flatten_cons, List.flatten_nil]
    rw [List.append_nil, List.take_append_drop, List.take_append_drop]

/-- C9 witness: 120 concrete entries. -/
theorem c9_chunk_sizes_witness :
    ((List.range 120).map fun n => (n, 0)).length = 120
    ∧ ((addTracksBatched ((List.range 120).map fun n => (n, 0))).map List.length
          = [50, 50, 20]
      ∧ (addTracksBatched ((List.range 120).map fun n => (n, 0))).flatten
          = ((List.range 120).map fun n => (n, 0)).map Prod.fst) :=
  ⟨by simp, c9_chunk_sizes ((List.range 120).map fun n => (n, 0)) (by simp)⟩

/-- C9 counterexample: the reversed entry sequence is a permutation of the
same 120 map entries, hence a legal Go map iteration order; the loop then
transmits the reversed order, not the discovery order. -/
theorem c9_counterexample :
    ((((List.range 120).map fun n => (n, 0)).reverse).Perm
        ((List.range 120).map fun n => (n, 0)))
    ∧ (addTracksBatched (((List.range 120).map fun n => (n, 0)).reverse)).flatten
        = (((List.range 120).map fun n => (n, 0)).map Prod.fst).reverse
    ∧ (((List.range 120).map fun n => (n, 0)).map Prod.fst).reverse
        ≠ ((List.range 120).map fun n => (n, 0)).map Prod.fst := by
  refine ⟨List.reverse_perm _, by decide, by decide⟩

end GnssSync
